import Mathlib

/-
  Shallow embedding of the lsquaredc I2C transaction-sequence compiler
  (src/lsquaredc.c).  Tokens are 16-bit values modelled as Nat; every
  uint8_t truncation in the source is an explicit `% 256`.  The pointer
  arithmetic of the source (msg_buf / msg_cur_buf_ptr / received_data)
  is modelled by offsets into an explicit write-scratch byte list and
  into the caller's receive buffer.
-/

namespace Lsquaredc

/-- Modelled from the spec: the repository header lsquaredc.h (not under
src/) declares the out-of-band sentinel token I2C_READ, a 16-bit value
distinct from all 8-bit data bytes and from I2C_RESTART. -/
def I2C_READ : Nat := 256

/-- Modelled from the spec: the repository header lsquaredc.h (not under
src/) declares the out-of-band sentinel token I2C_RESTART, a 16-bit value
distinct from all 8-bit data bytes and from I2C_READ. -/
def I2C_RESTART : Nat := 512

/-- Modelled from the spec: the transport's maximum atomic-segment limit,
42 in the reference system (the Linux kernel constant
I2C_RDRW_IOCTL_MAX_MSGS referenced by src/lsquaredc.c line 117). -/
def I2C_RDRW_IOCTL_MAX_MSGS : Nat := 42

/-- Buffer pointer of a compiled segment: either an offset into the
write-scratch buffer (msg_buf) or an offset into the caller's receive
buffer (received_data). -/
inductive BufPtr where
  | scratch (off : Nat)
  | recv (off : Nat)
deriving DecidableEq

/-- One compiled struct i2c_msg: 7-bit address, direction flag
(I2C_M_RD present iff flags_rd), byte length, buffer pointer. -/
structure I2cMsg where
  addr : Nat
  flags_rd : Bool
  len : Nat
  buf : BufPtr
deriving DecidableEq

/-- Mutable state of the compile loop in i2c_send_sequence:
address and rw registers, msg_cur_buf_base offset, msg_cur_buf_size,
the received_data cursor offset, the bytes written to msg_buf so far
(so that msg_cur_buf_ptr equals scratch.length), and the messages
filled in so far. -/
structure CState where
  address : Nat
  rw : Nat
  base : Nat
  size : Nat
  rcv : Nat
  scratch : List Nat
  msgs : List I2cMsg
deriving DecidableEq

/-- Loop body part for a non-RESTART token (lsquaredc.c lines 126..131):
on a write the token's low byte is appended to msg_buf and the cursor
advances; the segment size counter increments for any non-RESTART token. -/
def stage (seq : List Nat) (i : Nat) (st : CState) : CState :=
  if seq.getD i 0 = I2C_RESTART then st
  else { st with
           scratch := if st.rw = 0 then st.scratch ++ [(seq.getD i 0) % 256]
                      else st.scratch
         , size := st.size + 1 }

/-- Loop body part closing a segment (lsquaredc.c lines 133..142): fill
the current i2c_msg from the state and advance the receive cursor when
the segment was a read. -/
def emitSeg (st : CState) : CState :=
  let m : I2cMsg :=
    { addr := st.address / 2
    , flags_rd := st.rw != 0
    , len := st.size
    , buf := if st.rw != 0 then BufPtr.recv st.rcv else BufPtr.scratch st.base }
  { st with
      msgs := st.msgs ++ [m]
    , rcv := if st.rw = 1 then st.rcv + st.size else st.rcv }

/-- Loop body part starting the next segment when the two-token lookahead
succeeds (lsquaredc.c lines 145..149): read the next token as the new
address byte (uint8_t truncation), reset size and the scratch base. -/
def nextSeg (seq : List Nat) (i : Nat) (st : CState) : CState :=
  let a := (seq.getD (i + 1) 0) % 256
  { st with address := a, rw := a % 2, size := 0, base := st.scratch.length }

/-- The while loop of i2c_send_sequence (lsquaredc.c lines 125..153),
fuelled: each iteration processes index i and moves to i+1, or to i+2
when a segment boundary with a successful lookahead consumes the next
token as an address.  Fuel at least L - i makes the fuel irrelevant. -/
def compileLoop (seq : List Nat) (L : Nat) : Nat → Nat → CState → CState
  | 0, _, st => st
  | fuel + 1, i, st =>
    if i < L then
      let st1 := stage seq i st
      if seq.getD i 0 = I2C_RESTART ∨ i = L - 1 then
        let st2 := emitSeg st1
        if i + 2 < L then compileLoop seq L fuel (i + 2) (nextSeg seq i st2)
        else compileLoop seq L fuel (i + 1) st2
      else compileLoop seq L fuel (i + 1) st1
    else st

/-- The for loop of count_segments (lsquaredc.c lines 69..77), fuelled. -/
def count_loop (seq : List Nat) (L : Nat) : Nat → Nat → Nat → Nat
  | 0, _, n => n
  | fuel + 1, i, n =>
    if i < L then
      count_loop seq L fuel (i + 1)
        (if seq.getD i 0 = I2C_RESTART then n + 1 else n)
    else n

/-- count_segments (lsquaredc.c lines 69..77): one segment plus one per
RESTART token at positions 1..L-1. -/
def count_segments (seq : List Nat) (L : Nat) : Nat :=
  count_loop seq L L 1 1

/-- Initial loop state of i2c_send_sequence (lsquaredc.c lines 119..123):
address is the uint8_t truncation of token 0, rw its low bit, all
cursors at zero. -/
def initState (seq : List Nat) : CState :=
  let a := (seq.getD 0 0) % 256
  { address := a, rw := a % 2, base := 0, size := 0, rcv := 0
  , scratch := [], msgs := [] }

/-- Result of one i2c_send_sequence call: either the early -1 failure
(goto cleanup before the loop) or submission to the transport with the
filled message list, the scratch-buffer contents, and the nmsgs value
passed to the ioctl (which is count_segments, not the number of
messages actually filled). -/
inductive SendResult where
  | earlyFail (ret : Int)
  | submitted (msgs : List I2cMsg) (scratch : List Nat) (nmsgs : Nat)
deriving DecidableEq

/-- Observable outcome of i2c_send_sequence, together with the number of
malloc calls performed (always two, both before the validity checks:
lsquaredc.c lines 103 and 107) and of free calls on the cleanup path
(always two: lines 161..162). -/
structure SendOutcome where
  mallocCount : Nat
  freeCount : Nat
  result : SendResult
deriving DecidableEq

/-- i2c_send_sequence (lsquaredc.c lines 101..165), up to the external
ioctl: count segments, allocate, validate length and segment count
(early -1 return on failure), run the compile loop from index 1, and
submit messages plus nmsgs to the transport. -/
def i2c_send_sequence (seq : List Nat) (L : Nat) : SendOutcome :=
  if L < 2 then { mallocCount := 2, freeCount := 2, result := .earlyFail (-1) }
  else if I2C_RDRW_IOCTL_MAX_MSGS < count_segments seq L then
    { mallocCount := 2, freeCount := 2, result := .earlyFail (-1) }
  else
    { mallocCount := 2, freeCount := 2
    , result := .submitted ((compileLoop seq L L 1 (initState seq)).msgs)
        ((compileLoop seq L L 1 (initState seq)).scratch)
        (count_segments seq L) }

/-- Whether the outcome reached the transport submission (the ioctl). -/
def reachedTransport (o : SendOutcome) : Bool :=
  match o.result with
  | .submitted _ _ _ => true
  | .earlyFail _ => false

@[simp] lemma stage_address (seq : List Nat) (i : Nat) (st : CState) :
    (stage seq i st).address = st.address := by
  unfold stage; split <;> rfl

@[simp] lemma stage_rw (seq : List Nat) (i : Nat) (st : CState) :
    (stage seq i st).rw = st.rw := by
  unfold stage; split <;> rfl

@[simp] lemma stage_base (seq : List Nat) (i : Nat) (st : CState) :
    (stage seq i st).base = st.base := by
  unfold stage; split <;> rfl

@[simp] lemma stage_rcv (seq : List Nat) (i : Nat) (st : CState) :
    (stage seq i st).rcv = st.rcv := by
  unfold stage; split <;> rfl

@[simp] lemma stage_msgs (seq : List Nat) (i : Nat) (st : CState) :
    (stage seq i st).msgs = st.msgs := by
  unfold stage; split <;> rfl

lemma stage_of_restart (seq : List Nat) (i : Nat) (st : CState)
    (h : seq.getD i 0 = I2C_RESTART) : stage seq i st = st := by
  unfold stage; rw [if_pos h]

lemma stage_of_tok (seq : List Nat) (i : Nat) (st : CState)
    (h : ¬ seq.getD i 0 = I2C_RESTART) :
    stage seq i st =
      { st with
          scratch := if st.rw = 0 then st.scratch ++ [(seq.getD i 0) % 256]
                     else st.scratch
        , size := st.size + 1 } := by
  unfold stage; rw [if_neg h]

/-- The message emitted by a segment close, as a function of the state. -/
def segOf (st : CState) : I2cMsg :=
  { addr := st.address / 2
  , flags_rd := st.rw != 0
  , len := st.size
  , buf := if st.rw != 0 then BufPtr.recv st.rcv else BufPtr.scratch st.base }

@[simp] lemma emitSeg_msgs (st : CState) :
    (emitSeg st).msgs = st.msgs ++ [segOf st] := rfl

@[simp] lemma emitSeg_address (st : CState) : (emitSeg st).address = st.address := rfl

@[simp] lemma emitSeg_rw (st : CState) : (emitSeg st).rw = st.rw := rfl

@[simp] lemma emitSeg_base (st : CState) : (emitSeg st).base = st.base := rfl

@[simp] lemma emitSeg_size (st : CState) : (emitSeg st).size = st.size := rfl

@[simp] lemma emitSeg_scratch (st : CState) : (emitSeg st).scratch = st.scratch := rfl

@[simp] lemma emitSeg_rcv (st : CState) :
    (emitSeg st).rcv = if st.rw = 1 then st.rcv + st.size else st.rcv := rfl

@[simp] lemma nextSeg_rcv (seq : List Nat) (i : Nat) (st : CState) :
    (nextSeg seq i st).rcv = st.rcv := rfl

@[simp] lemma nextSeg_scratch (seq : List Nat) (i : Nat) (st : CState) :
    (nextSeg seq i st).scratch = st.scratch := rfl

@[simp] lemma nextSeg_msgs (seq : List Nat) (i : Nat) (st : CState) :
    (nextSeg seq i st).msgs = st.msgs := rfl

@[simp] lemma nextSeg_address (seq : List Nat) (i : Nat) (st : CState) :
    (nextSeg seq i st).address = (seq.getD (i + 1) 0) % 256 := rfl

@[simp] lemma nextSeg_rw (seq : List Nat) (i : Nat) (st : CState) :
    (nextSeg seq i st).rw = (seq.getD (i + 1) 0) % 256 % 2 := rfl

@[simp] lemma nextSeg_size (seq : List Nat) (i : Nat) (st : CState) :
    (nextSeg seq i st).size = 0 := rfl

@[simp] lemma nextSeg_base (seq : List Nat) (i : Nat) (st : CState) :
    (nextSeg seq i st).base = st.scratch.length := rfl

lemma loop_succ (seq : List Nat) (L fuel i : Nat) (st : CState) :
    compileLoop seq L (fuel + 1) i st =
      if i < L then
        (if seq.getD i 0 = I2C_RESTART ∨ i = L - 1 then
           (if i + 2 < L then
              compileLoop seq L fuel (i + 2) (nextSeg seq i (emitSeg (stage seq i st)))
            else compileLoop seq L fuel (i + 1) (emitSeg (stage seq i st)))
         else compileLoop seq L fuel (i + 1) (stage seq i st))
      else st := rfl

lemma loop_exit (seq : List Nat) (L fuel i : Nat) (st : CState)
    (h : ¬ i < L) : compileLoop seq L fuel i st = st := by
  cases fuel with
  | zero => rfl
  | succ f => rw [loop_succ, if_neg h]

lemma loop_mid (seq : List Nat) (L fuel i : Nat) (st : CState)
    (h : i < L) (ht : ¬ seq.getD i 0 = I2C_RESTART) (hl : ¬ i = L - 1) :
    compileLoop seq L (fuel + 1) i st =
      compileLoop seq L fuel (i + 1) (stage seq i st) := by
  rw [loop_succ, if_pos h, if_neg (fun hor => hor.elim ht hl)]

lemma loop_close_next (seq : List Nat) (L fuel i : Nat) (st : CState)
    (h : i < L) (hb : seq.getD i 0 = I2C_RESTART ∨ i = L - 1)
    (hlk : i + 2 < L) :
    compileLoop seq L (fuel + 1) i st =
      compileLoop seq L fuel (i + 2) (nextSeg seq i (emitSeg (stage seq i st))) := by
  rw [loop_succ, if_pos h, if_pos hb, if_pos hlk]

lemma loop_close_stay (seq : List Nat) (L fuel i : Nat) (st : CState)
    (h : i < L) (hb : seq.getD i 0 = I2C_RESTART ∨ i = L - 1)
    (hlk : ¬ i + 2 < L) :
    compileLoop seq L (fuel + 1) i st =
      compileLoop seq L fuel (i + 1) (emitSeg (stage seq i st)) := by
  rw [loop_succ, if_pos h, if_pos hb, if_neg hlk]

lemma send_result_submitted (seq : List Nat) (L : Nat) (msgs : List I2cMsg)
    (scr : List Nat) (n : Nat)
    (h : (i2c_send_sequence seq L).result = SendResult.submitted msgs scr n) :
    2 ≤ L ∧ count_segments seq L ≤ I2C_RDRW_IOCTL_MAX_MSGS ∧
      n = count_segments seq L ∧
      msgs = (compileLoop seq L L 1 (initState seq)).msgs ∧
      scr = (compileLoop seq L L 1 (initState seq)).scratch := by
  unfold i2c_send_sequence at h
  by_cases h1 : L < 2
  · simp [h1] at h
  · by_cases h2 : I2C_RDRW_IOCTL_MAX_MSGS < count_segments seq L
    · simp [h1, h2] at h
    · simp only [h1, h2, if_neg, if_false, ite_false] at h
      simp only [SendResult.submitted.injEq] at h
      exact ⟨by omega, by omega, h.2.2.symm, h.1.symm, h.2.1.symm⟩

@[simp] lemma initState_address (seq : List Nat) :
    (initState seq).address = (seq.getD 0 0) % 256 := rfl

@[simp] lemma initState_rw (seq : List Nat) :
    (initState seq).rw = (seq.getD 0 0) % 256 % 2 := rfl

@[simp] lemma initState_base (seq : List Nat) : (initState seq).base = 0 := rfl

@[simp] lemma initState_size (seq : List Nat) : (initState seq).size = 0 := rfl

@[simp] lemma initState_rcv (seq : List Nat) : (initState seq).rcv = 0 := rfl

@[simp] lemma initState_scratch (seq : List Nat) : (initState seq).scratch = [] := rfl

@[simp] lemma initState_msgs (seq : List Nat) : (initState seq).msgs = [] := rfl

/-- Number of RESTART tokens at positions i..L-1, a specification-side
recount of what the count_segments loop accumulates. -/
def restartsFrom (seq : List Nat) (L i : Nat) : Nat :=
  if i < L then
    (if seq.getD i 0 = I2C_RESTART then 1 else 0) + restartsFrom seq L (i + 1)
  else 0
termination_by L - i
decreasing_by omega

lemma restartsFrom_exit (seq : List Nat) (L i : Nat) (h : ¬ i < L) :
    restartsFrom seq L i = 0 := by
  conv_lhs => rw [restartsFrom]
  rw [if_neg h]

lemma restartsFrom_step (seq : List Nat) (L i : Nat) (h : i < L) :
    restartsFrom seq L i =
      (if seq.getD i 0 = I2C_RESTART then 1 else 0) + restartsFrom seq L (i + 1) := by
  conv_lhs => rw [restartsFrom]
  rw [if_pos h]

lemma count_loop_succ (seq : List Nat) (L fuel i n : Nat) :
    count_loop seq L (fuel + 1) i n =
      if i < L then
        count_loop seq L fuel (i + 1)
          (if seq.getD i 0 = I2C_RESTART then n + 1 else n)
      else n := rfl

lemma count_loop_eq (seq : List Nat) (L : Nat) :
    ∀ fuel i n, L ≤ fuel + i → count_loop seq L fuel i n = n + restartsFrom seq L i := by
  intro fuel
  induction fuel with
  | zero =>
    intro i n h
    rw [restartsFrom_exit seq L i (by omega)]
    rfl
  | succ f ih =>
    intro i n h
    by_cases hi : i < L
    · rw [count_loop_succ, if_pos hi, ih (i + 1) _ (by omega),
          restartsFrom_step seq L i hi]
      by_cases ht : seq.getD i 0 = I2C_RESTART
      · rw [if_pos ht, if_pos ht]; omega
      · rw [if_neg ht, if_neg ht]; omega
    · rw [count_loop_succ, if_neg hi, restartsFrom_exit seq L i hi]
      rfl

lemma count_segments_eq (seq : List Nat) (L : Nat) :
    count_segments seq L = 1 + restartsFrom seq L 1 :=
  count_loop_eq seq L L 1 1 (by omega)

lemma msgs_mono (seq : List Nat) (L : Nat) :
    ∀ fuel i st, ∃ tail, (compileLoop seq L fuel i st).msgs = st.msgs ++ tail := by
  intro fuel
  induction fuel with
  | zero => intro i st; exact ⟨[], by simp [compileLoop]⟩
  | succ f ih =>
    intro i st
    by_cases hi : i < L
    · by_cases hb : seq.getD i 0 = I2C_RESTART ∨ i = L - 1
      · by_cases hlk : i + 2 < L
        · rw [loop_close_next seq L f i st hi hb hlk]
          obtain ⟨tail, ht⟩ := ih (i + 2) (nextSeg seq i (emitSeg (stage seq i st)))
          exact ⟨segOf (stage seq i st) :: tail, by simpa using ht⟩
        · rw [loop_close_stay seq L f i st hi hb hlk]
          obtain ⟨tail, ht⟩ := ih (i + 1) (emitSeg (stage seq i st))
          exact ⟨segOf (stage seq i st) :: tail, by simpa using ht⟩
      · obtain ⟨ht, hl⟩ := not_or.mp hb
        rw [loop_mid seq L f i st hi ht hl]
        obtain ⟨tail, htl⟩ := ih (i + 1) (stage seq i st)
        exact ⟨tail, by simpa using htl⟩
    · exact ⟨[], by rw [loop_exit seq L _ i st hi]; simp⟩

/-- Well-formedness invariant of the sequence data model (spec section 3):
every RESTART at positions 1..L-1 is followed by an address byte that is
not itself RESTART, and at least one further token follows that address. -/
def wellFormed (seq : List Nat) (L : Nat) : Prop :=
  ∀ p, p < L → 1 ≤ p → seq.getD p 0 = I2C_RESTART →
    p + 3 ≤ L ∧ ¬ seq.getD (p + 1) 0 = I2C_RESTART

instance wellFormedDecidable (seq : List Nat) (L : Nat) :
    Decidable (wellFormed seq L) :=
  inferInstanceAs (Decidable (∀ p, p < L → 1 ≤ p → seq.getD p 0 = I2C_RESTART →
    p + 3 ≤ L ∧ ¬ seq.getD (p + 1) 0 = I2C_RESTART))

lemma compile_msgs_len (seq : List Nat) (L : Nat) (hwf : wellFormed seq L) :
    ∀ fuel i st, L ≤ fuel + i → 1 ≤ i → i < L →
      ((compileLoop seq L fuel i st).msgs).length =
        st.msgs.length + restartsFrom seq L i + 1 := by
  intro fuel
  induction fuel with
  | zero => intro i st h h1 h2; omega
  | succ f ih =>
    intro i st hfi h1 hiL
    by_cases ht : seq.getD i 0 = I2C_RESTART
    · obtain ⟨hlen, hnext⟩ := hwf i hiL h1 ht
      rw [loop_close_next seq L f i st hiL (Or.inl ht) (by omega)]
      rw [ih (i + 2) _ (by omega) (by omega) (by omega)]
      rw [restartsFrom_step seq L i hiL, if_pos ht,
          restartsFrom_step seq L (i + 1) (by omega), if_neg hnext,
          show i + 1 + 1 = i + 2 from rfl]
      simp only [nextSeg_msgs, emitSeg_msgs, stage_msgs, List.length_append,
        List.length_singleton]
      omega
    · by_cases hl : i = L - 1
      · rw [loop_close_stay seq L f i st hiL (Or.inr hl) (by omega),
            loop_exit seq L f (i + 1) _ (by omega)]
        rw [restartsFrom_step seq L i hiL, if_neg ht,
            restartsFrom_exit seq L (i + 1) (by omega)]
        simp only [emitSeg_msgs, stage_msgs, List.length_append,
          List.length_singleton]
      · rw [loop_mid seq L f i st hiL ht hl,
            ih (i + 1) _ (by omega) (by omega) (by omega)]
        rw [restartsFrom_step seq L i hiL, if_neg ht]
        simp only [stage_msgs]
        omega

/-- C1 (amended): for every well-formed sequence the compiler accepts,
the number of segments the compile loop actually fills equals the
count_segments result. -/
theorem c1_emitted_eq_counted (seq : List Nat) (L : Nat) (msgs : List I2cMsg)
    (scr : List Nat) (n : Nat) (hwf : wellFormed seq L)
    (h : (i2c_send_sequence seq L).result = SendResult.submitted msgs scr n) :
    msgs.length = count_segments seq L := by
  obtain ⟨hL, hcnt, hn, hmsgs, hscr⟩ := send_result_submitted seq L msgs scr n h
  rw [hmsgs,
      compile_msgs_len seq L hwf L 1 (initState seq) (by omega) (by omega) (by omega),
      count_segments_eq]
  simp only [initState_msgs, List.length_nil]
  omega

/-- C1 witness: the example repeated-start query; both hypotheses hold
at this concrete input and the amended equality evaluates. -/
theorem c1_emitted_eq_counted_witness :
    ([ { addr := 56, flags_rd := false, len := 1, buf := BufPtr.scratch 0 }
     , { addr := 56, flags_rd := true, len := 1, buf := BufPtr.recv 0 } ] :
      List I2cMsg).length = count_segments [112, 138, 512, 113, 256] 5 :=
  c1_emitted_eq_counted [112, 138, 512, 113, 256] 5 _ [138] 2
    (by decide) (by decide)

/-- C1 counterexample: the sequence [112, RESTART] of length 2 is
accepted (it reaches submission), count_segments returns 2, but the
loop fills only one message; the claim fails as stated for sequences
that violate the data-model invariant on RESTART placement. -/
theorem c1_counterexample :
    (i2c_send_sequence [112, 512] 2).result =
      SendResult.submitted
        [ { addr := 56, flags_rd := false, len := 0, buf := BufPtr.scratch 0 } ] [] 2 ∧
    ¬ ([ { addr := 56, flags_rd := false, len := 0, buf := BufPtr.scratch 0 } ] :
        List I2cMsg).length = count_segments [112, 512] 2 := by
  decide

lemma ne_restart_of_lt (t : Nat) (h : t < 512) : ¬ t = I2C_RESTART := by
  unfold I2C_RESTART; omega

lemma send_build (seq : List Nat) (L : Nat) (h1 : ¬ L < 2)
    (h2 : ¬ I2C_RDRW_IOCTL_MAX_MSGS < count_segments seq L) :
    i2c_send_sequence seq L =
      { mallocCount := 2, freeCount := 2
      , result := SendResult.submitted
          ((compileLoop seq L L 1 (initState seq)).msgs)
          ((compileLoop seq L L 1 (initState seq)).scratch)
          (count_segments seq L) } := by
  unfold i2c_send_sequence
  rw [if_neg h1, if_neg h2]

/-- C6 counterexample: a length-0 call does fail with the -1 sentinel,
but it performs both allocations before the length check; the claim
that no allocation is performed is false at this input. -/
theorem c6_counterexample :
    (i2c_send_sequence [] 0).result = SendResult.earlyFail (-1) ∧
    (i2c_send_sequence [] 0).mallocCount = 2 ∧
    ¬ (i2c_send_sequence [] 0).mallocCount = 0 := by
  decide

/-- C6 (amended): every call with length < 2 returns the negative -1
sentinel without reaching the transport submission; the two scratch
allocations are performed before the check and both are released. -/
theorem c6_short_sequence_fails (seq : List Nat) (L : Nat) (h : L < 2) :
    (i2c_send_sequence seq L).result = SendResult.earlyFail (-1) ∧
    reachedTransport (i2c_send_sequence seq L) = false ∧
    (i2c_send_sequence seq L).mallocCount = 2 ∧
    (i2c_send_sequence seq L).freeCount = 2 ∧
    (-1 : Int) < 0 := by
  refine ⟨?_, ?_, ?_, ?_, by omega⟩ <;>
    simp [i2c_send_sequence, reachedTransport, h]

/-- C6 witness: the amended theorem applied at the empty call. -/
theorem c6_short_sequence_fails_witness :
    (i2c_send_sequence [] 0).result = SendResult.earlyFail (-1) ∧
    reachedTransport (i2c_send_sequence [] 0) = false ∧
    (i2c_send_sequence [] 0).mallocCount = 2 ∧
    (i2c_send_sequence [] 0).freeCount = 2 ∧
    (-1 : Int) < 0 :=
  c6_short_sequence_fails [] 0 (by omega)

/-- C7: every call whose counted segment number exceeds the transport
limit of 42 fails with the -1 sentinel and the transport submission is
never reached. -/
theorem c7_too_many_segments (seq : List Nat) (L : Nat)
    (h : I2C_RDRW_IOCTL_MAX_MSGS < count_segments seq L) :
    (i2c_send_sequence seq L).result = SendResult.earlyFail (-1) ∧
    reachedTransport (i2c_send_sequence seq L) = false := by
  by_cases h1 : L < 2
  · simp [i2c_send_sequence, reachedTransport, h1]
  · simp [i2c_send_sequence, reachedTransport, h1, h]

/-- C7 witness: an address token followed by 43 RESTART tokens counts
44 segments, above the limit of 42. -/
theorem c7_too_many_segments_witness :
    (i2c_send_sequence (0 :: List.replicate 43 512) 44).result =
      SendResult.earlyFail (-1) ∧
    reachedTransport (i2c_send_sequence (0 :: List.replicate 43 512) 44) = false :=
  c7_too_many_segments (0 :: List.replicate 43 512) 44 (by decide)

lemma stage_scratch_len (seq : List Nat) (i : Nat) (st : CState) :
    ((stage seq i st).scratch).length ≤ st.scratch.length + 1 := by
  unfold stage
  split
  · omega
  · by_cases hrw : st.rw = 0
    · simp [hrw]
    · simp [hrw]

lemma scratch_bound (seq : List Nat) (L : Nat) :
    ∀ fuel i st,
      ((compileLoop seq L fuel i st).scratch).length ≤ st.scratch.length + (L - i) := by
  intro fuel
  induction fuel with
  | zero => intro i st; simp [compileLoop]
  | succ f ih =>
    intro i st
    by_cases hi : i < L
    · have hs := stage_scratch_len seq i st
      by_cases hb : seq.getD i 0 = I2C_RESTART ∨ i = L - 1
      · by_cases hlk : i + 2 < L
        · rw [loop_close_next seq L f i st hi hb hlk]
          have hrec := ih (i + 2) (nextSeg seq i (emitSeg (stage seq i st)))
          simp only [nextSeg_scratch, emitSeg_scratch] at hrec
          omega
        · rw [loop_close_stay seq L f i st hi hb hlk]
          have hrec := ih (i + 1) (emitSeg (stage seq i st))
          simp only [emitSeg_scratch] at hrec
          omega
      · obtain ⟨ht, hl⟩ := not_or.mp hb
        rw [loop_mid seq L f i st hi ht hl]
        have hrec := ih (i + 1) (stage seq i st)
        omega
    · rw [loop_exit seq L _ i st hi]
      omega

/-- C8: for every call that reaches submission, the total number of
bytes the loop appended to the write-scratch buffer is at most L - 1,
hence at most L, so the msg_buf allocation of L bytes is never overrun. -/
theorem c8_scratch_within_alloc (seq : List Nat) (L : Nat) (msgs : List I2cMsg)
    (scr : List Nat) (n : Nat)
    (h : (i2c_send_sequence seq L).result = SendResult.submitted msgs scr n) :
    scr.length + 1 ≤ L ∧ scr.length ≤ L := by
  obtain ⟨hL, _, _, _, hscr⟩ := send_result_submitted seq L msgs scr n h
  have hb := scratch_bound seq L L 1 (initState seq)
  rw [← hscr] at hb
  simp only [initState_scratch, List.length_nil] at hb
  omega

/-- C8 witness: a pure-write call of length 4 stages three bytes. -/
theorem c8_scratch_within_alloc_witness :
    ([1, 2, 3] : List Nat).length + 1 ≤ 4 ∧ ([1, 2, 3] : List Nat).length ≤ 4 :=
  c8_scratch_within_alloc [112, 1, 2, 3] 4
    [ { addr := 56, flags_rd := false, len := 3, buf := BufPtr.scratch 0 } ]
    [1, 2, 3] 1 (by decide)

/-- C3: a pure-write sequence of shape [addr with write bit, b1, b2, b3]
compiles to exactly one WRITE segment of length 3 whose scratch buffer
holds [b1, b2, b3] in order. -/
theorem c3_pure_write (a b1 b2 b3 : Nat) (ha : a < 256) (haw : a % 2 = 0)
    (h1 : b1 < 256) (h2 : b2 < 256) (h3 : b3 < 256) :
    i2c_send_sequence [a, b1, b2, b3] 4 =
      { mallocCount := 2, freeCount := 2
      , result := SendResult.submitted
          [ { addr := a / 2, flags_rd := false, len := 3, buf := BufPtr.scratch 0 } ]
          [b1, b2, b3] 1 } := by
  have hn1 : ¬ [a, b1, b2, b3].getD 1 0 = I2C_RESTART :=
    ne_restart_of_lt b1 (by omega)
  have hn2 : ¬ [a, b1, b2, b3].getD 2 0 = I2C_RESTART :=
    ne_restart_of_lt b2 (by omega)
  have hn3 : ¬ [a, b1, b2, b3].getD 3 0 = I2C_RESTART :=
    ne_restart_of_lt b3 (by omega)
  have hc : count_segments [a, b1, b2, b3] 4 = 1 := by
    rw [count_segments_eq,
        restartsFrom_step _ 4 1 (by omega), if_neg hn1,
        show (1 : Nat) + 1 = 2 from rfl,
        restartsFrom_step _ 4 2 (by omega), if_neg hn2,
        show (2 : Nat) + 1 = 3 from rfl,
        restartsFrom_step _ 4 3 (by omega), if_neg hn3,
        show (3 : Nat) + 1 = 4 from rfl,
        restartsFrom_exit _ 4 4 (by omega)]
  rw [send_build _ 4 (by omega) (by rw [hc]; decide), hc]
  rw [loop_mid [a, b1, b2, b3] 4 3 1 _ (by omega) hn1 (by omega)]
  rw [loop_mid [a, b1, b2, b3] 4 2 2 _ (by omega) hn2 (by omega)]
  rw [loop_close_stay [a, b1, b2, b3] 4 1 3 _ (by omega) (Or.inr rfl) (by omega)]
  rw [loop_exit [a, b1, b2, b3] 4 1 4 _ (by omega)]
  have ha' : a % 256 = a := Nat.mod_eq_of_lt ha
  have pn1 : ¬ b1 = I2C_RESTART := ne_restart_of_lt b1 (by omega)
  have pn2 : ¬ b2 = I2C_RESTART := ne_restart_of_lt b2 (by omega)
  have pn3 : ¬ b3 = I2C_RESTART := ne_restart_of_lt b3 (by omega)
  simp [stage, emitSeg, segOf, initState, ha', haw, pn1, pn2, pn3,
    Nat.mod_eq_of_lt h1, Nat.mod_eq_of_lt h2, Nat.mod_eq_of_lt h3]

/-- C3 witness: the first init sequence of the example program has this
shape after padding to four tokens. -/
theorem c3_pure_write_witness :
    i2c_send_sequence [112, 128, 3, 7] 4 =
      { mallocCount := 2, freeCount := 2
      , result := SendResult.submitted
          [ { addr := 56, flags_rd := false, len := 3, buf := BufPtr.scratch 0 } ]
          [128, 3, 7] 1 } :=
  c3_pure_write 112 128 3 7 (by omega) (by omega) (by omega) (by omega) (by omega)

/-- C2: the restart sequence [addr1 write, d1, RESTART, addr2 read, READ]
compiles to exactly a WRITE segment of length 1 with buffer [d1] followed
by a READ segment of length 1 pointing at receive offset 0. -/
theorem c2_restart_sequence (a1 d1 a2 : Nat) (ha1 : a1 < 256) (hw : a1 % 2 = 0)
    (hd : d1 < 256) (ha2 : a2 < 256) (hr : a2 % 2 = 1) :
    i2c_send_sequence [a1, d1, I2C_RESTART, a2, I2C_READ] 5 =
      { mallocCount := 2, freeCount := 2
      , result := SendResult.submitted
          [ { addr := a1 / 2, flags_rd := false, len := 1, buf := BufPtr.scratch 0 }
          , { addr := a2 / 2, flags_rd := true, len := 1, buf := BufPtr.recv 0 } ]
          [d1] 2 } := by
  have hn1 : ¬ [a1, d1, I2C_RESTART, a2, I2C_READ].getD 1 0 = I2C_RESTART :=
    ne_restart_of_lt d1 (by omega)
  have hn3 : ¬ [a1, d1, I2C_RESTART, a2, I2C_READ].getD 3 0 = I2C_RESTART :=
    ne_restart_of_lt a2 (by omega)
  have hn4 : ¬ [a1, d1, I2C_RESTART, a2, I2C_READ].getD 4 0 = I2C_RESTART :=
    ne_restart_of_lt 256 (by omega)
  have hc : count_segments [a1, d1, I2C_RESTART, a2, I2C_READ] 5 = 2 := by
    rw [count_segments_eq,
        restartsFrom_step _ 5 1 (by omega), if_neg hn1,
        show (1 : Nat) + 1 = 2 from rfl,
        restartsFrom_step _ 5 2 (by omega),
        if_pos (show [a1, d1, I2C_RESTART, a2, I2C_READ].getD 2 0 = I2C_RESTART
          from rfl),
        show (2 : Nat) + 1 = 3 from rfl,
        restartsFrom_step _ 5 3 (by omega), if_neg hn3,
        show (3 : Nat) + 1 = 4 from rfl,
        restartsFrom_step _ 5 4 (by omega), if_neg hn4,
        show (4 : Nat) + 1 = 5 from rfl,
        restartsFrom_exit _ 5 5 (by omega)]
  rw [send_build _ 5 (by omega) (by rw [hc]; decide), hc]
  rw [loop_mid [a1, d1, I2C_RESTART, a2, I2C_READ] 5 4 1 _ (by omega) hn1
    (by omega)]
  rw [loop_close_next [a1, d1, I2C_RESTART, a2, I2C_READ] 5 3 2 _ (by omega)
    (Or.inl rfl) (by omega)]
  rw [loop_close_stay [a1, d1, I2C_RESTART, a2, I2C_READ] 5 2 4 _ (by omega)
    (Or.inr rfl) (by omega)]
  rw [loop_exit [a1, d1, I2C_RESTART, a2, I2C_READ] 5 2 5 _ (by omega)]
  have ha1' : a1 % 256 = a1 := Nat.mod_eq_of_lt ha1
  have ha2' : a2 % 256 = a2 := Nat.mod_eq_of_lt ha2
  have pn1 : ¬ d1 = I2C_RESTART := ne_restart_of_lt d1 (by omega)
  have pn3 : ¬ a2 = I2C_RESTART := ne_restart_of_lt a2 (by omega)
  have pn4 : ¬ I2C_READ = I2C_RESTART := by decide
  simp [stage, emitSeg, segOf, nextSeg, initState, ha1', ha2', hw, hr,
    pn1, pn3, pn4, Nat.mod_eq_of_lt hd]

/-- C2 witness: the part-number query of the example program. -/
theorem c2_restart_sequence_witness :
    i2c_send_sequence [112, 138, I2C_RESTART, 113, I2C_READ] 5 =
      { mallocCount := 2, freeCount := 2
      , result := SendResult.submitted
          [ { addr := 56, flags_rd := false, len := 1, buf := BufPtr.scratch 0 }
          , { addr := 56, flags_rd := true, len := 1, buf := BufPtr.recv 0 } ]
          [138] 2 } :=
  c2_restart_sequence 112 138 113 (by omega) (by omega) (by omega) (by omega)
    (by omega)

/-- Default message used with List.getD when indexing message lists. -/
def dfltMsg : I2cMsg :=
  { addr := 0, flags_rd := false, len := 0, buf := BufPtr.scratch 0 }

/-- Sum of the lengths of the READ segments in a message list. -/
def readLenSum : List I2cMsg → Nat
  | [] => 0
  | m :: ms => (if m.flags_rd then m.len else 0) + readLenSum ms

lemma readLenSum_append (xs ys : List I2cMsg) :
    readLenSum (xs ++ ys) = readLenSum xs + readLenSum ys := by
  induction xs with
  | nil => simp [readLenSum]
  | cons x xs ih => simp [readLenSum, ih]; omega

/-- Invariant relating the receive cursor to the READ segments already
emitted: the cursor equals the total length of emitted READ segments,
and every emitted READ segment points into the receive buffer at the
offset given by the READ lengths before it. -/
def ReadInv (st : CState) : Prop :=
  st.rw ≤ 1 ∧ st.rcv = readLenSum st.msgs ∧
  ∀ k, k < st.msgs.length → (st.msgs.getD k dfltMsg).flags_rd = true →
    (st.msgs.getD k dfltMsg).buf = BufPtr.recv (readLenSum (st.msgs.take k))

lemma readInv_stage (seq : List Nat) (i : Nat) (st : CState)
    (h : ReadInv st) : ReadInv (stage seq i st) := by
  obtain ⟨h1, h2, h3⟩ := h
  exact ⟨by simpa using h1, by simpa using h2, by simpa using h3⟩

lemma readInv_next (seq : List Nat) (i : Nat) (st : CState)
    (h : ReadInv st) : ReadInv (nextSeg seq i st) := by
  obtain ⟨h1, h2, h3⟩ := h
  exact ⟨by simp [nextSeg_rw]; omega, by simpa using h2, by simpa using h3⟩

lemma readInv_emit (st : CState) (h : ReadInv st) : ReadInv (emitSeg st) := by
  obtain ⟨h1, h2, h3⟩ := h
  refine ⟨by simpa using h1, ?_, ?_⟩
  · rw [emitSeg_rcv, emitSeg_msgs, readLenSum_append]
    by_cases hr : st.rw = 1
    · rw [if_pos hr]
      simp [readLenSum, segOf, hr, h2]
    · have hr0 : st.rw = 0 := by omega
      rw [if_neg hr]
      simp [readLenSum, segOf, hr0, h2]
  · intro k hk hfl
    rw [emitSeg_msgs] at hk hfl ⊢
    simp only [List.length_append, List.length_singleton] at hk
    by_cases hklt : k < st.msgs.length
    · rw [List.getD_append _ _ _ _ hklt] at hfl ⊢
      rw [List.take_append_of_le_length (by omega)]
      exact h3 k hklt hfl
    · have hke : k = st.msgs.length := by omega
      subst hke
      rw [List.getD_append_right _ _ _ _ (Nat.le_refl _), Nat.sub_self] at hfl ⊢
      rw [List.take_append_of_le_length (Nat.le_refl _), List.take_length]
      have hfl2 : (segOf st).flags_rd = true := hfl
      have hrw : st.rw = 1 := by
        simp [segOf, bne] at hfl2
        omega
      simp [List.getD, segOf, hrw, h2]

lemma readInv_loop (seq : List Nat) (L : Nat) :
    ∀ fuel i st, ReadInv st → ReadInv (compileLoop seq L fuel i st) := by
  intro fuel
  induction fuel with
  | zero => intro i st h; exact h
  | succ f ih =>
    intro i st h
    by_cases hi : i < L
    · by_cases hb : seq.getD i 0 = I2C_RESTART ∨ i = L - 1
      · by_cases hlk : i + 2 < L
        · rw [loop_close_next seq L f i st hi hb hlk]
          exact ih _ _ (readInv_next seq i _ (readInv_emit _ (readInv_stage seq i st h)))
        · rw [loop_close_stay seq L f i st hi hb hlk]
          exact ih _ _ (readInv_emit _ (readInv_stage seq i st h))
      · obtain ⟨ht, hl⟩ := not_or.mp hb
        rw [loop_mid seq L f i st hi ht hl]
        exact ih _ _ (readInv_stage seq i st h)
    · rw [loop_exit seq L _ i st hi]
      exact h

lemma readInv_init (seq : List Nat) : ReadInv (initState seq) := by
  refine ⟨by simp; omega, by simp [readLenSum], ?_⟩
  intro k hk
  simp at hk

/-- C4: every READ segment the compiler emits points into the caller's
receive buffer at the offset given by the sum of the lengths of the
earlier READ segments (WRITE segments never advance that offset), and
the pure-read sequence [addr or 1, READ, READ] compiles to one READ
segment of length 2 at receive offset 0. -/
theorem c4_read_buffer_offsets (seq : List Nat) (L : Nat) (msgs : List I2cMsg)
    (scr : List Nat) (n : Nat)
    (h : (i2c_send_sequence seq L).result = SendResult.submitted msgs scr n) :
    (∀ k, k < msgs.length → (msgs.getD k dfltMsg).flags_rd = true →
       (msgs.getD k dfltMsg).buf = BufPtr.recv (readLenSum (msgs.take k))) ∧
    (i2c_send_sequence [113, 256, 256] 3).result =
      SendResult.submitted
        [ { addr := 56, flags_rd := true, len := 2, buf := BufPtr.recv 0 } ] [] 1 := by
  obtain ⟨hL, hcnt, hn, hmsgs, hscr⟩ := send_result_submitted seq L msgs scr n h
  constructor
  · have hinv := readInv_loop seq L L 1 (initState seq) (readInv_init seq)
    rw [hmsgs]
    exact hinv.2.2
  · decide

/-- C4 witness: the theorem applied at the pure-read call. -/
theorem c4_read_buffer_offsets_witness :
    (i2c_send_sequence [113, 256, 256] 3).result =
      SendResult.submitted
        [ { addr := 56, flags_rd := true, len := 2, buf := BufPtr.recv 0 } ] [] 1 :=
  (c4_read_buffer_offsets [113, 256, 256] 3
    [ { addr := 56, flags_rd := true, len := 2, buf := BufPtr.recv 0 } ] [] 1
    (by decide)).2

lemma compile_first (seq : List Nat) (L : Nat) :
    ∀ fuel i st, L ≤ fuel + i → i < L → st.msgs = [] →
      ∃ m rest, (compileLoop seq L fuel i st).msgs = m :: rest ∧
        m.addr = st.address / 2 ∧ m.flags_rd = (st.rw != 0) := by
  intro fuel
  induction fuel with
  | zero => intro i st h hi hm; omega
  | succ f ih =>
    intro i st hfi hi hm
    by_cases hb : seq.getD i 0 = I2C_RESTART ∨ i = L - 1
    · by_cases hlk : i + 2 < L
      · rw [loop_close_next seq L f i st hi hb hlk]
        obtain ⟨tail, htail⟩ :=
          msgs_mono seq L f (i + 2) (nextSeg seq i (emitSeg (stage seq i st)))
        refine ⟨segOf (stage seq i st), tail, ?_, by simp [segOf], by simp [segOf]⟩
        rw [htail]
        simp [hm]
      · rw [loop_close_stay seq L f i st hi hb hlk]
        obtain ⟨tail, htail⟩ := msgs_mono seq L f (i + 1) (emitSeg (stage seq i st))
        refine ⟨segOf (stage seq i st), tail, ?_, by simp [segOf], by simp [segOf]⟩
        rw [htail]
        simp [hm]
    · obtain ⟨ht, hl⟩ := not_or.mp hb
      rw [loop_mid seq L f i st hi ht hl]
      obtain ⟨m, rest, hme, hma, hmf⟩ :=
        ih (i + 1) (stage seq i st) (by omega) (by omega) (by simpa using hm)
      exact ⟨m, rest, hme, by rwa [stage_address] at hma, by rwa [stage_rw] at hmf⟩

/-- C5 (amended): the first emitted segment decodes its address from the
low byte of token 0 (uint8_t truncation), its direction from bit 0 of
token 0 (which truncation preserves); after every RESTART boundary with
a successful lookahead, the next token is decoded the same way into the
state used for the following segment. -/
theorem c5_address_direction_decoding :
    (∀ seq L msgs scr n,
       (i2c_send_sequence seq L).result = SendResult.submitted msgs scr n →
       ∃ m rest, msgs = m :: rest ∧
         m.addr = (seq.getD 0 0) % 256 / 2 ∧
         (m.flags_rd = true ↔ (seq.getD 0 0) % 2 = 1)) ∧
    (∀ seq L fuel i st, i < L → seq.getD i 0 = I2C_RESTART → i + 2 < L →
       compileLoop seq L (fuel + 1) i st =
         compileLoop seq L fuel (i + 2) (nextSeg seq i (emitSeg st)) ∧
       (nextSeg seq i (emitSeg st)).address = (seq.getD (i + 1) 0) % 256 ∧
       (nextSeg seq i (emitSeg st)).rw = (seq.getD (i + 1) 0) % 2) := by
  constructor
  · intro seq L msgs scr n h
    obtain ⟨hL, hcnt, hn, hmsgs, hscr⟩ := send_result_submitted seq L msgs scr n h
    obtain ⟨m, rest, he, haddr, hflag⟩ :=
      compile_first seq L L 1 (initState seq) (by omega) (by omega) rfl
    refine ⟨m, rest, by rw [hmsgs, he], ?_, ?_⟩
    · rw [haddr, initState_address]
    · rw [hflag, initState_rw, Nat.mod_mod_of_dvd _ (by norm_num)]
      simp [bne]
  · intro seq L fuel i st hi ht hlk
    refine ⟨?_, by simp, ?_⟩
    · rw [loop_close_next seq L fuel i st hi (Or.inl ht) hlk,
          stage_of_restart seq i st ht]
    · rw [nextSeg_rw, Nat.mod_mod_of_dvd _ (by norm_num)]

/-- C5 counterexample: token 0 with a value above 255 is truncated to
its low byte before the shift, so the first segment's address field is
56, not 368 / 2 = 184 as the unamended claim would require. -/
theorem c5_counterexample :
    (i2c_send_sequence [368, 5] 2).result =
      SendResult.submitted
        [ { addr := 56, flags_rd := false, len := 1, buf := BufPtr.scratch 0 } ]
        [5] 1 ∧
    ¬ (56 = 368 / 2) := by
  decide

/-- C5 witness: both parts of the amended theorem applied at concrete
inputs. -/
theorem c5_address_direction_decoding_witness :
    (∃ m rest,
       ([ { addr := 56, flags_rd := true, len := 1, buf := BufPtr.recv 0 } ] :
         List I2cMsg) = m :: rest ∧
       m.addr = ([113, 256].getD 0 0) % 256 / 2 ∧
       (m.flags_rd = true ↔ ([113, 256].getD 0 0) % 2 = 1)) ∧
    (compileLoop [112, 512, 113, 256] 4 (2 + 1) 1 (initState [112, 512, 113, 256]) =
       compileLoop [112, 512, 113, 256] 4 2 3
         (nextSeg [112, 512, 113, 256] 1 (emitSeg (initState [112, 512, 113, 256]))) ∧
     (nextSeg [112, 512, 113, 256] 1 (emitSeg (initState [112, 512, 113, 256]))).address =
       ([112, 512, 113, 256].getD 2 0) % 256 ∧
     (nextSeg [112, 512, 113, 256] 1 (emitSeg (initState [112, 512, 113, 256]))).rw =
       ([112, 512, 113, 256].getD 2 0) % 2) :=
  ⟨c5_address_direction_decoding.1 [113, 256] 2
      [ { addr := 56, flags_rd := true, len := 1, buf := BufPtr.recv 0 } ] [] 1
      (by decide),
   c5_address_direction_decoding.2 [112, 512, 113, 256] 4 2 1
      (initState [112, 512, 113, 256]) (by omega) rfl (by omega)⟩

/-- Relation between the last two emitted segments when a RESTART closes
the second-to-last position: the extra final segment reuses address and
direction, its length continues from the previous value (plus one when
the final token is not RESTART), and for a WRITE it reuses the previous
segment's buffer pointer. -/
def reuseRel (seq : List Nat) (L : Nat) (m1 m2 : I2cMsg) : Prop :=
  m2.addr = m1.addr ∧ m2.flags_rd = m1.flags_rd ∧
  m2.len = m1.len + (if seq.getD (L - 1) 0 = I2C_RESTART then 0 else 1) ∧
  (m1.flags_rd = false → m2.buf = m1.buf)

lemma c9_tail (seq : List Nat) (L : Nat) (h3 : 3 ≤ L)
    (hr : seq.getD (L - 2) 0 = I2C_RESTART) :
    ∀ fuel st, compileLoop seq L (fuel + 2) (L - 2) st =
      emitSeg (stage seq (L - 1) (emitSeg st)) := by
  intro fuel st
  rw [loop_close_stay seq L (fuel + 1) (L - 2) st (by omega) (Or.inl hr) (by omega),
      stage_of_restart seq (L - 2) st hr,
      show L - 2 + 1 = L - 1 by omega,
      loop_close_stay seq L fuel (L - 1) (emitSeg st) (by omega) (Or.inr rfl)
        (by omega),
      loop_exit seq L fuel (L - 1 + 1) _ (by omega)]

lemma c9_tail_rel (seq : List Nat) (L : Nat) (st : CState) :
    ∃ pre m1 m2,
      (emitSeg (stage seq (L - 1) (emitSeg st))).msgs = pre ++ [m1, m2] ∧
      reuseRel seq L m1 m2 := by
  refine ⟨st.msgs, segOf st, segOf (stage seq (L - 1) (emitSeg st)), ?_, ?_, ?_, ?_, ?_⟩
  · simp
  · simp [segOf]
  · simp [segOf]
  · by_cases hl : seq.getD (L - 1) 0 = I2C_RESTART
    · rw [if_pos hl]
      simp [segOf, stage_of_restart seq (L - 1) _ hl]
    · rw [if_neg hl]
      simp [segOf, stage_of_tok seq (L - 1) _ hl]
  · intro hf
    have hrw : st.rw = 0 := by
      simp [segOf, bne] at hf
      exact hf
    simp [segOf, hrw]

lemma c9_main (seq : List Nat) (L : Nat) (h3 : 3 ≤ L)
    (hr : seq.getD (L - 2) 0 = I2C_RESTART)
    (hprev : L = 3 ∨ ¬ seq.getD (L - 3) 0 = I2C_RESTART) :
    ∀ fuel i st, L ≤ fuel + i → 1 ≤ i → i ≤ L - 2 →
      ∃ pre m1 m2, (compileLoop seq L fuel i st).msgs = pre ++ [m1, m2] ∧
        reuseRel seq L m1 m2 := by
  intro fuel
  induction fuel with
  | zero => intro i st h hi1 hi2; omega
  | succ f ih =>
    intro i st hfi hi1 hi2
    by_cases hieq : i = L - 2
    · subst hieq
      obtain ⟨g, hg⟩ : ∃ g, f + 1 = g + 2 := ⟨f - 1, by omega⟩
      rw [hg, c9_tail seq L h3 hr g st]
      exact c9_tail_rel seq L st
    · have hilt : i < L - 2 := by omega
      by_cases ht : seq.getD i 0 = I2C_RESTART
      · have hine : ¬ i = L - 3 := by
          intro he
          rcases hprev with h3e | hnr
          · omega
          · exact hnr (he ▸ ht)
        rw [loop_close_next seq L f i st (by omega) (Or.inl ht) (by omega)]
        exact ih (i + 2) _ (by omega) (by omega) (by omega)
      · rw [loop_mid seq L f i st (by omega) ht (by omega)]
        exact ih (i + 1) _ (by omega) (by omega) (by omega)

/-- C9 (amended): in every accepted sequence of length at least 3 whose
token at position length-2 is a RESTART that the scan actually visits
(guaranteed when length is 3 or the token at length-3 is not RESTART),
the failed two-token lookahead leaves address, direction, size and
write base unreset, so the final token yields an extra segment that
reuses the previous segment's address and direction, continues its
length counter, and (for WRITE) reuses its buffer pointer. -/
theorem c9_penultimate_restart (seq : List Nat) (L : Nat) (msgs : List I2cMsg)
    (scr : List Nat) (n : Nat) (h3 : 3 ≤ L)
    (hr : seq.getD (L - 2) 0 = I2C_RESTART)
    (hprev : L = 3 ∨ ¬ seq.getD (L - 3) 0 = I2C_RESTART)
    (h : (i2c_send_sequence seq L).result = SendResult.submitted msgs scr n) :
    ∃ pre m1 m2, msgs = pre ++ [m1, m2] ∧ reuseRel seq L m1 m2 := by
  obtain ⟨hL, hcnt, hn, hmsgs, hscr⟩ := send_result_submitted seq L msgs scr n h
  rw [hmsgs]
  exact c9_main seq L h3 hr hprev L 1 (initState seq) (by omega) (by omega)
    (by omega)

/-- C9 witness: the amended theorem applied at a write sequence with a
RESTART at the second-to-last position. -/
theorem c9_penultimate_restart_witness :
    ∃ pre m1 m2,
      ([ { addr := 56, flags_rd := false, len := 1, buf := BufPtr.scratch 0 }
       , { addr := 56, flags_rd := false, len := 2, buf := BufPtr.scratch 0 } ] :
        List I2cMsg) = pre ++ [m1, m2] ∧ reuseRel [112, 85, 512, 99] 4 m1 m2 :=
  c9_penultimate_restart [112, 85, 512, 99] 4
    [ { addr := 56, flags_rd := false, len := 1, buf := BufPtr.scratch 0 }
    , { addr := 56, flags_rd := false, len := 2, buf := BufPtr.scratch 0 } ]
    [85, 99] 2 (by omega) (by decide) (Or.inr (by decide)) (by decide)

/-- C9 counterexample: the accepted sequence [112, RESTART, RESTART, 85]
has a RESTART at index length-2, yet that RESTART is consumed as an
address token by the lookahead of the earlier RESTART, so the final
segment's address is 0 (the truncated RESTART value shifted), not the
previous segment's address 56: the unamended claim fails here. -/
theorem c9_counterexample :
    (i2c_send_sequence [112, 512, 512, 85] 4).result =
      SendResult.submitted
        [ { addr := 56, flags_rd := false, len := 0, buf := BufPtr.scratch 0 }
        , { addr := 0, flags_rd := false, len := 1, buf := BufPtr.scratch 0 } ]
        [85] 3 ∧
    [112, 512, 512, 85].getD 2 0 = I2C_RESTART ∧
    ¬ (0 = 56) := by
  decide

/-- C10: the call fails (with the -1 early return, before any transport
submission) exactly when the length is below 2 or the counted segments
exceed 42; and a non-RESTART token at a non-final position is never
validated: the loop stages its low byte on a WRITE and just counts it
on a READ, whatever its value. -/
theorem c10_no_token_validation :
    (∀ seq L, ((i2c_send_sequence seq L).result = SendResult.earlyFail (-1) ↔
       (L < 2 ∨ I2C_RDRW_IOCTL_MAX_MSGS < count_segments seq L))) ∧
    (∀ seq L fuel i st, i < L → ¬ seq.getD i 0 = I2C_RESTART → ¬ i = L - 1 →
       compileLoop seq L (fuel + 1) i st =
         compileLoop seq L fuel (i + 1) (stage seq i st) ∧
       (stage seq i st).size = st.size + 1 ∧
       (stage seq i st).scratch =
         (if st.rw = 0 then st.scratch ++ [(seq.getD i 0) % 256]
          else st.scratch)) := by
  constructor
  · intro seq L
    constructor
    · intro h
      by_contra hc
      push_neg at hc
      obtain ⟨h1, h2⟩ := hc
      rw [send_build seq L (by omega) (by omega)] at h
      simp at h
    · intro h
      unfold i2c_send_sequence
      by_cases h1 : L < 2
      · rw [if_pos h1]
      · rw [if_neg h1, if_pos (h.resolve_left h1)]
  · intro seq L fuel i st hi ht hl
    refine ⟨loop_mid seq L fuel i st hi ht hl, ?_, ?_⟩
    · rw [stage_of_tok seq i st ht]
    · rw [stage_of_tok seq i st ht]

/-- C10 witness: both parts applied at concrete inputs. -/
theorem c10_no_token_validation_witness :
    (i2c_send_sequence [] 0).result = SendResult.earlyFail (-1) ∧
    (compileLoop [112, 7, 9] 3 (5 + 1) 1 (initState [112, 7, 9]) =
       compileLoop [112, 7, 9] 3 5 2 (stage [112, 7, 9] 1 (initState [112, 7, 9])) ∧
     (stage [112, 7, 9] 1 (initState [112, 7, 9])).size =
       (initState [112, 7, 9]).size + 1 ∧
     (stage [112, 7, 9] 1 (initState [112, 7, 9])).scratch =
       (if (initState [112, 7, 9]).rw = 0 then
          (initState [112, 7, 9]).scratch ++ [([112, 7, 9].getD 1 0) % 256]
        else (initState [112, 7, 9]).scratch)) :=
  ⟨(c10_no_token_validation.1 [] 0).mpr (Or.inl (by omega)),
   c10_no_token_validation.2 [112, 7, 9] 3 5 1 (initState [112, 7, 9])
     (by omega) (by decide) (by omega)⟩

example : i2c_send_sequence [112, 138, 512, 113, 256] 5 =
    { mallocCount := 2, freeCount := 2
    , result := .submitted
        [ { addr := 56, flags_rd := false, len := 1, buf := .scratch 0 }
        , { addr := 56, flags_rd := true, len := 1, buf := .recv 0 } ]
        [138] 2 } := by decide

example : i2c_send_sequence [112, 512] 2 =
    { mallocCount := 2, freeCount := 2
    , result := .submitted
        [ { addr := 56, flags_rd := false, len := 0, buf := .scratch 0 } ]
        [] 2 } := by decide

end Lsquaredc
